import Mathlib

/-!
Shallow embedding of giddyup (src/main.go): a go-generate tool that reads a
version constant from a `version.go` file, increments one of its three
numeric components, and rewrites the file.

Strings are modelled as lists of characters (`Str`).  File-system state is
modelled as functions from paths to parse results, since the program only
ever observes files through Go's source parser.
-/

namespace Giddyup

abbrev Str := List Char

instance {ε α : Type} [DecidableEq ε] [DecidableEq α] : DecidableEq (Except ε α) :=
  fun x y =>
    match x, y with
    | .ok a, .ok b =>
      if h : a = b then isTrue (by subst h; rfl)
      else isFalse (by intro hc; injection hc; contradiction)
    | .error a, .error b =>
      if h : a = b then isTrue (by subst h; rfl)
      else isFalse (by intro hc; injection hc; contradiction)
    | .ok _, .error _ => isFalse (by intro hc; injection hc)
    | .error _, .ok _ => isFalse (by intro hc; injection hc)

/-! ### The version incrementer -/

/-- Split a character list at every occurrence of `sep`; the result always
has at least one part and the parts do not contain `sep`. -/
def splitOnChar (sep : Char) : Str → List Str
  | [] => [[]]
  | c :: cs =>
    if c = sep then [] :: splitOnChar sep cs
    else
      match splitOnChar sep cs with
      | [] => [[c]]
      | p :: ps => (c :: p) :: ps

/-- Split a character list at every `'.'`, the decomposition induced by the
version pattern's two literal dots. -/
def splitOnDot (s : Str) : List Str := splitOnChar '.' s

/-- Embedding of the anchored pattern `\A(\d)+\.(\d)\.(\d)+\z` compiled in
`getNextVersion` (src/main.go line 172), together with the submatches
reported by `FindAllStringSubmatch`.  The pattern matches exactly the
strings of the form `digits+ '.' digit '.' digits+`; since the three groups
cannot contain a dot, a string matches iff splitting it on dots yields
exactly three all-digit parts, the middle one a single digit.  RE2 reports,
for a capturing group under a `+` repetition, the text of the LAST
iteration, so submatch 1 is the last digit of the major part and submatch 3
is the last digit of the patch part, while submatch 2 is the (single-digit)
minor part itself. -/
def versionRegExCaptures (version : Str) : Option (Str × Str × Str) :=
  match splitOnDot version with
  | [a, b, c] =>
    if !a.isEmpty && a.all Char.isDigit
        && b.length == 1 && b.all Char.isDigit
        && !c.isEmpty && c.all Char.isDigit then
      some ([a.getLastD '0'], b, [c.getLastD '0'])
    else
      none
  | _ => none

/-- Whether the version string matches the compiled pattern at all
(`versionRegEx.MatchString`, src/main.go line 174). -/
def versionRegExMatches (version : Str) : Bool :=
  (versionRegExCaptures version).isSome

/-- Embedding of `strconv.Atoi` restricted to the inputs it receives here:
the submatches of the pattern, which are non-empty all-digit strings (in
fact single digits, so the `int` overflow case of `Atoi` cannot occur and
is not modelled). -/
def atoi (s : Str) : Option Nat :=
  if !s.isEmpty && s.all Char.isDigit then
    some (s.foldl (fun acc c => acc * 10 + (c.toNat - 48)) 0)
  else
    none

/-- Decimal rendering of a component, as `fmt.Sprintf` with verb `%d` does
for a non-negative `int`. -/
def natToChars (n : Nat) : Str := (Nat.repr n).toList

/-- The fixed part of the format-error message of `getNextVersion` before
the offending input. -/
def fmtErrPre : Str := "Version format should be [number.number.number] but was [".toList

/-- The fixed part of the format-error message of `getNextVersion` after
the offending input. -/
def fmtErrPost : Str := "]".toList

/-- Embedding of `getNextVersion` (src/main.go lines 171-204).  On a
pattern match it parses the three submatches, increments the component
selected by `mode` (a `switch` with no default: an unknown mode increments
nothing), and formats the result as `%d.%d.%d`; otherwise it returns the
format error carrying the offending string.  The three `Atoi` error
branches of the source are unreachable because the submatches are always
single digits; they are modelled by the same defensive structure via
`atoi`'s `none` case, which likewise never fires. -/
def getNextVersion (version mode : Str) : Except Str Str :=
  match versionRegExCaptures version with
  | none => .error (fmtErrPre ++ version ++ fmtErrPost)
  | some (m1, m2, m3) =>
    match atoi m1 with
    | none => .error (fmtErrPre ++ version ++ fmtErrPost)
    | some majorVersion =>
      match atoi m2 with
      | none => .error (fmtErrPre ++ version ++ fmtErrPost)
      | some minorVersion =>
        match atoi m3 with
        | none => .error (fmtErrPre ++ version ++ fmtErrPost)
        | some patchVersion =>
          let next : Nat × Nat × Nat :=
            if mode = "PATCH".toList then (majorVersion, minorVersion, patchVersion + 1)
            else if mode = "MINOR".toList then (majorVersion, minorVersion + 1, patchVersion)
            else if mode = "MAJOR".toList then (majorVersion + 1, minorVersion, patchVersion)
            else (majorVersion, minorVersion, patchVersion)
          .ok (natToChars next.1 ++ '.' :: natToChars next.2.1 ++ '.' :: natToChars next.2.2)

/-- The spec's version pattern `^\d+\.\d+\.\d+$`, stated from the spec's
words for comparison with the implementation's pattern: three dot-separated
non-empty all-digit groups, anchored at both ends. -/
def specVersionPattern (s : Str) : Bool :=
  match splitOnDot s with
  | [a, b, c] =>
    !a.isEmpty && a.all Char.isDigit && !b.isEmpty && b.all Char.isDigit
      && !c.isEmpty && c.all Char.isDigit
  | _ => false

/-! ### File paths

Embeddings of the `path/filepath` functions the program uses, for Unix path
separators: `Clean`, `Dir` and two-element `Join`. -/

/-- The `..`-resolution pass of Go's `path.Clean`, applied to the list of
non-empty, non-`.` path elements: a `..` pops a previous element, is
dropped at the root, and is kept when there is nothing left to pop in a
relative path. -/
def cleanStack (rooted : Bool) : List Str → List Str → List Str
  | [], acc => acc.reverse
  | p :: ps, acc =>
    if p = ['.', '.'] then
      match acc with
      | [] => if rooted then cleanStack rooted ps [] else cleanStack rooted ps [p]
      | q :: qs =>
        if q = ['.', '.'] then cleanStack rooted ps (p :: q :: qs)
        else cleanStack rooted ps qs
    else cleanStack rooted ps (p :: acc)

/-- Embedding of `filepath.Clean` for Unix separators: empty path becomes
`.`, the path is split on slashes, empty and `.` elements are dropped,
`..` elements are resolved, and the result is re-joined, prefixed with a
slash when the input was rooted; an empty result is `/` or `.`. -/
def goClean (path : Str) : Str :=
  if path.isEmpty then ['.']
  else
    let rooted := path.headD ' ' = '/'
    let parts := (splitOnChar '/' path).filter (fun p => !p.isEmpty && p != ['.'])
    let outs := cleanStack rooted parts []
    if outs.isEmpty then (if rooted then ['/'] else ['.'])
    else (if rooted then ['/'] else []) ++ List.intercalate ['/'] outs

/-- Embedding of Unix `filepath.Dir`: everything up to and including the
final slash (empty when there is no slash), cleaned. -/
def goDir (path : Str) : Str :=
  goClean ((path.reverse.dropWhile (fun c => c != '/')).reverse)

/-- Embedding of Unix `filepath.Join` on two elements: empty elements are
skipped, the rest are joined with a slash and cleaned; when every element
is empty the result is empty. -/
def goJoin (a b : Str) : Str :=
  if a.isEmpty then (if b.isEmpty then [] else goClean b)
  else if b.isEmpty then goClean a
  else goClean (a ++ '/' :: b)

/-! ### The Go syntax trees the locator inspects

`getCurrentVersion` observes a parsed file only through: its list of
top-level declarations, whether a declaration is a `const` `GenDecl`, the
names and values of each `ValueSpec`, and the raw text of a `BasicLit`
value (for a string literal the double quotes are part of that raw text,
as in Go's `ast.BasicLit.Value`).  `parsePackage` additionally observes the
package name.  This is the whole interface, so a parsed file is modelled by
exactly these components. -/

/-- A right-hand-side expression of a spec: a basic literal with its raw
source text, or anything else. -/
inductive GoValue : Type
  | basicLit (raw : Str)
  | otherExpr
deriving DecidableEq

/-- A declaration spec: a `ValueSpec` with its names and values, or any
other spec. -/
inductive GoSpec : Type
  | valueSpec (names : List Str) (values : List GoValue)
  | otherSpec
deriving DecidableEq

/-- A top-level declaration: a `GenDecl` with token `CONST`, or any other
declaration. -/
inductive GoDecl : Type
  | constDecl (specs : List GoSpec)
  | otherDecl
deriving DecidableEq

/-- The result of the Go parser on one source file (`ast.File`): package
name and top-level declarations. -/
structure GoFile : Type where
  packageName : Str
  decls : List GoDecl
deriving DecidableEq

/-- A file system as the program observes it: the parse outcome for each
path, `none` when the file is missing or does not parse
(`parser.ParseFile` fails in either case). -/
abbrev ParsedFs := Str → Option GoFile

/-- Embedding of `strings.Trim(s, "\"")`: remove all leading and trailing
double-quote characters. -/
def trimQuotes (s : Str) : Str :=
  ((s.dropWhile (fun c => c = '"')).reverse.dropWhile (fun c => c = '"')).reverse

/-- The first `BasicLit` among the values of a spec, in order
(src/main.go lines 155-159 return at the first one). -/
def firstBasicLit : List GoValue → Option Str
  | [] => none
  | .basicLit raw :: _ => some raw
  | .otherExpr :: rest => firstBasicLit rest

/-- The nested name/value loops of `getCurrentVersion` over the specs of
one `const` declaration: for a `ValueSpec` binding the requested name,
return the trimmed first basic-literal value; when that spec has no
basic-literal value the loops fall through to the next spec. -/
def lookupSpecs (varName : Str) : List GoSpec → Option Str
  | [] => none
  | .valueSpec names values :: rest =>
    if varName ∈ names then
      match firstBasicLit values with
      | some raw => some (trimQuotes raw)
      | none => lookupSpecs varName rest
    else lookupSpecs varName rest
  | .otherSpec :: rest => lookupSpecs varName rest

/-- The outer declaration loop of `getCurrentVersion` (src/main.go lines
147-166): only `const` declarations are searched. -/
def lookupDecls (varName : Str) : List GoDecl → Option Str
  | [] => none
  | .constDecl specs :: rest =>
    match lookupSpecs varName specs with
    | some v => some v
    | none => lookupDecls varName rest
  | .otherDecl :: rest => lookupDecls varName rest

/-- An error returned by the locator: the Go parser's own error for the
file at the given path (its text is the parser's and is not modelled
further), or a message formatted by the program itself. -/
inductive GoErr : Type
  | parseErr (path : Str)
  | msg (text : Str)
deriving DecidableEq

/-- The default version used when initialization is requested. -/
def initialVersion : Str := "1.0.0".toList

/-- The well-known file name holding the version constant. -/
def versionGoName : Str := "version.go".toList

/-- Constant-not-found message part before the constant name. -/
def cnfPre : Str := "Could not find version constant [".toList

/-- Constant-not-found message part between constant name and file path. -/
def cnfMid : Str := "] in file [".toList

/-- Constant-not-found message part after the file path. -/
def cnfPost : Str := "]".toList

/-- Embedding of `getCurrentVersion` (src/main.go lines 131-169): parse
`filepath.Join(path, "version.go")`; if that fails, return `"1.0.0"` when
`lazyInit` is set and the parse error otherwise; if it parses, scan the
declarations for the constant and return its trimmed value, or the
could-not-find error naming the constant and the file path. -/
def getCurrentVersion (files : ParsedFs) (path : Str) (lazyInit : Bool)
    (varName : Str) : Except GoErr Str :=
  let versionFilePath := goJoin path versionGoName
  match files versionFilePath with
  | none =>
    if lazyInit then .ok initialVersion
    else .error (.parseErr versionFilePath)
  | some f =>
    match lookupDecls varName f.decls with
    | some v => .ok v
    | none => .error (.msg (cnfPre ++ varName ++ cnfMid ++ versionFilePath ++ cnfPost))

/-- Whether some `const` value-spec among the declarations binds the given
name (whatever its value expressions may be). -/
def mentionsConst (varName : Str) (decls : List GoDecl) : Bool :=
  decls.any (fun d =>
    match d with
    | .constDecl specs =>
      specs.any (fun s =>
        match s with
        | .valueSpec names _ => decide (varName ∈ names)
        | .otherSpec => false)
    | .otherDecl => false)

/-! ### The renderer

`writeHeader` writes one comment line through an `errWriter` over a
`bytes.Buffer`; `WriteString` on a `bytes.Buffer` never fails, so the
returned error is always nil and the function is modelled as pure text.
`generateContent` appends one `Sprintf` of the package clause and the
constant block and always returns nil. -/

/-- The text of the `writeHeader` comment line after its leading `//`. -/
def commentTail : Str :=
  " GENERATED and MANAGED by giddyup (https://github.com/alexandre-normand/giddyup)".toList

/-- The comment line of `writeHeader` (src/main.go line 209), without the
newline that `fmt.Sprintln` appends. -/
def commentLine : Str := '/' :: '/' :: commentTail

/-- The text `writeHeader` leaves in the buffer: the comment line plus the
newline appended by `fmt.Sprintln`. -/
def headerText : Str := commentLine ++ ['\n']

/-- The text `generateContent` (src/main.go lines 214-218) appends to the
buffer: `package %s\n\nconst (\n\t%s = \"%s\"\n)\n` formatted with the
package name, the constant name and the version, in that order. -/
def generateContent (pkg version varName : Str) : Str :=
  "package ".toList ++ pkg ++ "\n\nconst (\n\t".toList ++ varName
    ++ " = \"".toList ++ version ++ "\"\n)\n".toList

/-- The full rendered file contents written by `run`: header, then
generated content. -/
def renderAll (pkg version varName : Str) : Str :=
  headerText ++ generateContent pkg version varName

/-- Decompose a text into its lines (the parts between newlines; a
trailing newline contributes a final empty part). -/
def splitLines (s : Str) : List Str := splitOnChar '\n' s

/-! ### Re-parsing the rendered file

The round-trip property runs the rendered text back through Go's source
parser, which is standard-library code outside this repository; the
functions below model the fragment of it that the rendered shape
exercises. -/

/-- Drop characters up to and including the next newline (the tail of a
line comment). -/
def dropLine : Str → Str
  | [] => []
  | c :: cs => if c = '\n' then cs else dropLine cs

/-- Strip one leading `//` comment line, as the Go parser skips comments;
the renderer emits exactly one. -/
def stripComment (text : Str) : Str :=
  match text with
  | '/' :: '/' :: cs => dropLine cs
  | t => t

/-- Go identifier characters, restricted to ASCII: a letter or `_` starts
an identifier. -/
def isIdentStart (c : Char) : Bool := c.isAlpha || c = '_'

/-- Go identifier characters, restricted to ASCII: letters, digits and `_`
continue an identifier. -/
def isIdentCont (c : Char) : Bool := c.isAlphanum || c = '_'

/-- The longest run of identifier-continuation characters, and the rest. -/
def spanIdent : Str → Str × Str
  | [] => ([], [])
  | c :: cs =>
    if isIdentCont c then
      let (a, r) := spanIdent cs
      (c :: a, r)
    else ([], c :: cs)

/-- Read one identifier from the front of the text. -/
def takeIdent : Str → Option (Str × Str)
  | [] => none
  | c :: cs =>
    if isIdentStart c then
      let (a, r) := spanIdent cs
      some (c :: a, r)
    else none

/-- Consume an expected literal text from the front of the input. -/
def dropLit : Str → Str → Option Str
  | [], s => some s
  | _ :: _, [] => none
  | c :: cs, d :: ds => if d = c then dropLit cs ds else none

/-- Read the remainder of a double-quoted string literal (the opening
quote already consumed) up to its closing quote; escape sequences and raw
newlines make the literal fail to parse, as in Go (the model rejects every
backslash where Go would accept a valid escape pair, which is conservative
but agrees with Go on backslash-free contents). -/
def scanStringLit : Str → Option (Str × Str)
  | [] => none
  | c :: cs =>
    if c = '"' then some ([], cs)
    else if c = '\\' then none
    else if c = '\n' then none
    else
      match scanStringLit cs with
      | some (lit, rest) => some (c :: lit, rest)
      | none => none

/-- Modelled from the spec: the Locator re-parses the rendered declaration
unit with the Go source parser (`parser.ParseFile`), which is not part of
this repository.  The model parses exactly the shape the renderer emits --
one leading `//` comment line, the `package` clause, a blank line, and a
one-constant `const` block whose value is a double-quoted string literal
-- and yields the syntax tree `getCurrentVersion` then inspects, the
literal's raw text carrying its quotes as `ast.BasicLit.Value` does.
Texts outside this shape (as arise for version strings containing quotes,
backslashes or newlines, or for non-identifier names) fail to parse, as
they do in Go. -/
def parseRenderedFile (text : Str) : Option GoFile :=
  (dropLit ("package ".toList) (stripComment text)).bind fun t1 =>
  (takeIdent t1).bind fun pt =>
  (dropLit ("\n\nconst (\n\t".toList) pt.2).bind fun nt0 =>
  (takeIdent nt0).bind fun nt =>
  (dropLit (" = \"".toList) nt.2).bind fun t5 =>
  (scanStringLit t5).bind fun lt =>
  (dropLit ("\n)\n".toList) lt.2).bind fun t7 =>
  if t7.isEmpty then
    some (GoFile.mk pt.1
      [.constDecl [.valueSpec [nt.1] [.basicLit ('"' :: (lt.1 ++ ['"']))]]])
  else none

/-! ### The package namer and the orchestration -/

/-- The result of a computation that may call `log.Fatalf`, which
terminates the process instead of returning (src/main.go lines 228, 237,
242). -/
inductive FatalOr (α : Type) : Type
  | fatal (msg : Str)
  | ok (val : α)
deriving DecidableEq

/-- What the program observes of the world: directory listings
(`ioutil.ReadDir`; `none` when the directory cannot be read) and parse
outcomes of files keyed by the name handed to `parser.ParseFile`. -/
structure GoWorld : Type where
  dirs : Str → Option (List Str)
  files : ParsedFs

/-- Fatal-message part before the directory in the read-directory failure
(the trailing `: %v` with the I/O error text is the system's and is not
modelled). -/
def readDirErrPre : Str := "Failed to read directory [".toList

/-- Fatal-message part after the directory in the read-directory
failure. -/
def readDirErrPost : Str := "]".toList

/-- Fatal-message part before the file name in the parse failure (the
trailing `: %s` with the parser's error text is not modelled). -/
def parseFatalPre : Str := "parsing package: ".toList

/-- Fatal-message suffix of the no-buildable-files failure. -/
def noGoFilesPost : Str := ": no buildable Go files".toList

/-- The `.go`-suffix test of `parsePackage` (src/main.go line 232). -/
def hasGoSuffix (name : Str) : Bool := (".go".toList).isSuffixOf name

/-- The file loop of `parsePackage`: parse each listed `.go` file in
order, calling `log.Fatalf` at the first one that fails.  As in the
source, the bare file name (not joined with the directory) is handed to
the parser (src/main.go line 235). -/
def parseGoFiles (files : ParsedFs) : List Str → FatalOr (List GoFile)
  | [] => .ok []
  | name :: rest =>
    match files name with
    | none => .fatal (parseFatalPre ++ name)
    | some f =>
      match parseGoFiles files rest with
      | .fatal m => .fatal m
      | .ok fs => .ok (f :: fs)

/-- Embedding of `parsePackage` (src/main.go lines 223-245): list the
directory (fatal when unreadable), parse every `.go` file (fatal at the
first failure), fatal when no `.go` files were parsed, and otherwise
return the package name of the first parsed file. -/
def parsePackage (w : GoWorld) (directory : Str) : FatalOr Str :=
  match w.dirs directory with
  | none => .fatal (readDirErrPre ++ directory ++ readDirErrPost)
  | some names =>
    match parseGoFiles w.files (names.filter hasGoSuffix) with
    | .fatal m => .fatal m
    | .ok astFiles =>
      match astFiles with
      | [] => .fatal (directory ++ noGoFilesPost)
      | f :: _ => .ok f.packageName

/-- The outcome of `run`: a fatal exit from `parsePackage`, a returned
error, or success together with the `(path, contents)` pairs handed to
`ioutil.WriteFile` in order (the writes themselves are modelled as
succeeding). -/
inductive RunOutcome : Type
  | fatal (msg : Str)
  | err (e : GoErr)
  | ok (writes : List (Str × Str))
deriving DecidableEq

/-- The per-path loop of `run` (src/main.go lines 79-120): locate the
current version, compute the next one, render header and content for the
package parsed from the path, and write the buffer to
`fmt.Sprintf("%s/version.go", filepath.Dir(path))`. -/
def runPaths (w : GoWorld) (varName mode : Str) (lazyInit : Bool) :
    List Str → List (Str × Str) → RunOutcome
  | [], acc => .ok acc.reverse
  | path :: rest, acc =>
    match getCurrentVersion w.files path lazyInit varName with
    | .error e => .err e
    | .ok version =>
      match getNextVersion version mode with
      | .error m => .err (.msg m)
      | .ok nextDevVersion =>
        match parsePackage w path with
        | .fatal m => .fatal m
        | .ok pkg =>
          runPaths w varName mode lazyInit rest
            ((goDir path ++ ('/' :: versionGoName),
              renderAll pkg nextDevVersion varName) :: acc)

/-- Embedding of `run` (src/main.go lines 79-120) over its input paths. -/
def run (w : GoWorld) (varName : Str) (inputPaths : List Str) (mode : Str)
    (lazyInit : Bool) : RunOutcome :=
  runPaths w varName mode lazyInit inputPaths []

/-- A concrete world with a valid `app/version.go` and one parseable
source file `main.go`, used to exercise the orchestration theorems. -/
def wEx : GoWorld where
  dirs := fun d => if d = "app".toList then some ["main.go".toList] else none
  files := fun p =>
    if p = "app/version.go".toList then
      some (GoFile.mk "app".toList
        [.constDecl [.valueSpec ["VERSION".toList] [.basicLit ("\"1.0.0\"".toList)]]])
    else if p = "main.go".toList then
      some (GoFile.mk "main".toList [])
    else none

/-! ### Sanity checks of the embedding on concrete inputs -/

example : getNextVersion "1.0.0".toList "PATCH".toList = .ok "1.0.1".toList := rfl
example : getNextVersion "1.2.9".toList "MINOR".toList = .ok "1.3.9".toList := rfl
example : getNextVersion "2.5.7".toList "MAJOR".toList = .ok "3.5.7".toList := rfl
example : getNextVersion "1.x.0".toList "PATCH".toList
    = .error (fmtErrPre ++ "1.x.0".toList ++ fmtErrPost) := rfl
example : goJoin "app".toList "version.go".toList = "app/version.go".toList := rfl
example : goDir "app".toList = ".".toList := rfl
example : goDir "pkg/app".toList = "pkg".toList := rfl
example : goClean "/a/../b//c/.".toList = "/b/c".toList := rfl
example : commentLine
    = "// GENERATED and MANAGED by giddyup (https://github.com/alexandre-normand/giddyup)".toList :=
  rfl

/-! ### Helper lemmas -/

/-- Every string the implementation's pattern accepts is also accepted by
the spec's pattern (the implementation's is strictly narrower: it forces a
single-digit minor component), so a string the spec's pattern rejects has
no submatches. -/
theorem captures_none_of_spec_false (s : Str) (h : specVersionPattern s = false) :
    versionRegExCaptures s = none := by
  unfold specVersionPattern at h
  unfold versionRegExCaptures
  rcases hsp : splitOnDot s with _ | ⟨a, _ | ⟨b, _ | ⟨c, _ | ⟨d, rest⟩⟩⟩⟩ <;>
    rw [hsp] at h <;> try rfl
  by_cases hcond : (!a.isEmpty && a.all Char.isDigit
      && b.length == 1 && b.all Char.isDigit
      && !c.isEmpty && c.all Char.isDigit) = true
  · exfalso
    simp only [Bool.and_eq_true, beq_iff_eq] at hcond
    obtain ⟨⟨⟨⟨⟨ha1, ha2⟩, hb1⟩, hb2⟩, hc1⟩, hc2⟩ := hcond
    have hb0 : b.isEmpty = false := by
      cases b with
      | nil => simp at hb1
      | cons _ _ => rfl
    simp [ha1, ha2, hb2, hc1, hc2, hb0] at h
  · simp only [Bool.not_eq_true] at hcond
    simp [hcond]

/-- A decimal digit is not a dot. -/
theorem digit_ne_dot (c : Char) (h : c.isDigit = true) : ¬ c = '.' := by
  intro hc
  rw [hc] at h
  simp [Char.isDigit] at h

/-- Rendering the numeric value of a decimal digit with `%d` gives back
exactly that digit. -/
theorem natToChars_digit (c : Char) (h : c.isDigit = true) :
    natToChars (c.toNat - 48) = [c] := by
  have hcond : (c.val ≥ 48 && c.val ≤ 57) = true := h
  simp only [Bool.and_eq_true, ge_iff_le, decide_eq_true_eq] at hcond
  have h0 : 48 ≤ c.toNat := UInt32.le_toNat_of_le (by norm_num) hcond.1
  have h9 : c.toNat ≤ 57 := UInt32.toNat_le_of_le (by norm_num) hcond.2
  have hc : Char.ofNat c.toNat = c := Char.ofNat_toNat c
  rw [← hc]
  set n := c.toNat with hn
  interval_cases n <;> rfl

/-- `strconv.Atoi` on a single decimal digit yields its value. -/
theorem atoi_single_digit (c : Char) (h : c.isDigit = true) :
    atoi [c] = some (c.toNat - 48) := by
  simp [atoi, h]

/-- When no spec of the list binds the name, the spec scan returns
nothing. -/
theorem lookupSpecs_eq_none (varName : Str) (specs : List GoSpec)
    (h : specs.any (fun s =>
        match s with
        | .valueSpec names _ => decide (varName ∈ names)
        | .otherSpec => false) = false) :
    lookupSpecs varName specs = none := by
  induction specs with
  | nil => rfl
  | cons s rest ih =>
    simp only [List.any_cons, Bool.or_eq_false_iff] at h
    cases s with
    | valueSpec names values =>
      have hn : ¬ varName ∈ names := by
        have := h.1
        simp at this
        exact this
      unfold lookupSpecs
      rw [if_neg hn]
      exact ih h.2
    | otherSpec =>
      unfold lookupSpecs
      exact ih h.2

/-- When no `const` declaration binds the name, the declaration scan
returns nothing. -/
theorem lookupDecls_eq_none (varName : Str) (decls : List GoDecl)
    (h : mentionsConst varName decls = false) :
    lookupDecls varName decls = none := by
  induction decls with
  | nil => rfl
  | cons d rest ih =>
    unfold mentionsConst at h
    simp only [List.any_cons, Bool.or_eq_false_iff] at h
    cases d with
    | constDecl specs =>
      unfold lookupDecls
      rw [lookupSpecs_eq_none varName specs h.1]
      exact ih (by unfold mentionsConst; exact h.2)
    | otherDecl =>
      unfold lookupDecls
      exact ih (by unfold mentionsConst; exact h.2)

/-- Splitting an appended text whose first chunk is separator-free peels
off that chunk as the first part. -/
theorem splitOnChar_append_cons (sep : Char) (xs ys : Str)
    (h : ∀ c ∈ xs, ¬ c = sep) :
    splitOnChar sep (xs ++ sep :: ys) = xs :: splitOnChar sep ys := by
  induction xs with
  | nil => simp [splitOnChar]
  | cons c cs ih =>
    have hc : ¬ c = sep := h c (by simp)
    have ih' := ih (fun d hd => h d (by simp [hd]))
    simp [splitOnChar, hc, ih']

/-- Splitting at a leading separator yields a leading empty part. -/
theorem splitOnChar_cons_sep (sep : Char) (ys : Str) :
    splitOnChar sep (sep :: ys) = [] :: splitOnChar sep ys := by
  simp [splitOnChar]

/-- A separator-free text is a single part. -/
theorem splitOnChar_no_sep (sep : Char) (xs : Str) (h : ∀ c ∈ xs, ¬ c = sep) :
    splitOnChar sep xs = [xs] := by
  induction xs with
  | nil => rfl
  | cons c cs ih =>
    have hc : ¬ c = sep := h c (by simp)
    have ih' := ih (fun d hd => h d (by simp [hd]))
    simp [splitOnChar, hc, ih']

/-- Dropping a line returns the text after the first newline. -/
theorem dropLine_append (xs ys : Str) (h : ∀ c ∈ xs, ¬ c = '\n') :
    dropLine (xs ++ '\n' :: ys) = ys := by
  induction xs with
  | nil => simp [dropLine]
  | cons c cs ih =>
    have hc : ¬ c = '\n' := h c (by simp)
    simp [dropLine, hc, ih (fun d hd => h d (by simp [hd]))]

/-- Consuming a literal that the input starts with succeeds with the
rest. -/
theorem dropLit_append (pre rest : Str) : dropLit pre (pre ++ rest) = some rest := by
  induction pre with
  | nil => rfl
  | cons c cs ih => simp [dropLit, ih]

/-- The identifier span stops at the first non-identifier character. -/
theorem spanIdent_append (xs : Str) (y : Char) (ys : Str)
    (hxs : ∀ c ∈ xs, isIdentCont c = true) (hy : isIdentCont y = false) :
    spanIdent (xs ++ y :: ys) = (xs, y :: ys) := by
  induction xs with
  | nil => simp [spanIdent, hy]
  | cons c cs ih =>
    have hc := hxs c (by simp)
    simp [spanIdent, hc, ih (fun d hd => hxs d (by simp [hd]))]

/-- Reading an identifier from identifier text followed by a
non-identifier character yields exactly that identifier. -/
theorem takeIdent_append (c : Char) (cs : Str) (y : Char) (ys : Str)
    (hc : isIdentStart c = true) (hcs : ∀ d ∈ cs, isIdentCont d = true)
    (hy : isIdentCont y = false) :
    takeIdent ((c :: cs) ++ y :: ys) = some (c :: cs, y :: ys) := by
  simp [takeIdent, hc, spanIdent_append cs y ys hcs hy]

/-- Scanning a literal body free of quotes, backslashes and newlines stops
exactly at the closing quote. -/
theorem scanStringLit_append (lit rest : Str)
    (h : ∀ c ∈ lit, ¬ c = '"' ∧ ¬ c = '\\' ∧ ¬ c = '\n') :
    scanStringLit (lit ++ '"' :: rest) = some (lit, rest) := by
  induction lit with
  | nil => simp [scanStringLit]
  | cons c cs ih =>
    obtain ⟨h1, h2, h3⟩ := h c (by simp)
    simp [scanStringLit, h1, h2, h3, ih (fun d hd => h d (by simp [hd]))]

/-- A list whose elements all fail the predicate is untouched by
`dropWhile`. -/
theorem dropWhile_of_all_false (p : Char → Bool) (l : Str)
    (h : ∀ c ∈ l, p c = false) : l.dropWhile p = l := by
  cases l with
  | nil => rfl
  | cons c cs => simp [List.dropWhile, h c (by simp)]

/-- Trimming the quotes from a quoted text whose body contains no quote
gives back the body. -/
theorem trimQuotes_quoted (v : Str) (h : ∀ c ∈ v, ¬ c = '"') :
    trimQuotes ('"' :: (v ++ ['"'])) = v := by
  unfold trimQuotes
  have h1 : ('"' :: (v ++ ['"'])).dropWhile (fun c => decide (c = '"'))
      = (v ++ ['"']).dropWhile (fun c => decide (c = '"')) := by
    simp [List.dropWhile]
  rw [h1]
  cases v with
  | nil => rfl
  | cons c cs =>
    have hc : ¬ c = '"' := h c (by simp)
    have h2 : ((c :: cs) ++ ['"']).dropWhile (fun c => decide (c = '"'))
        = (c :: cs) ++ ['"'] := by
      simp [List.dropWhile, hc]
    rw [h2]
    have h3 : ((c :: cs) ++ ['"']).reverse = '"' :: (c :: cs).reverse := by
      simp
    rw [h3]
    have h4 : ('"' :: (c :: cs).reverse).dropWhile (fun c => decide (c = '"'))
        = (c :: cs).reverse.dropWhile (fun c => decide (c = '"')) := by
      simp [List.dropWhile]
    rw [h4]
    rw [dropWhile_of_all_false _ _ (by
      intro d hd
      have hdm : d ∈ (c :: cs) := List.mem_reverse.mp hd
      simp [h d hdm])]
    simp

/-- Parsing the rendered text back recovers the package name, the constant
name and the quoted version literal, provided the names are identifiers
and the version contains no quote, backslash or newline. -/
theorem parseRenderedFile_render (p0 : Char) (prest : Str) (v0 : Char) (vrest : Str)
    (version : Str)
    (hp0 : isIdentStart p0 = true) (hprest : ∀ c ∈ prest, isIdentCont c = true)
    (hv0 : isIdentStart v0 = true) (hvrest : ∀ c ∈ vrest, isIdentCont c = true)
    (hver : ∀ c ∈ version, ¬ c = '"' ∧ ¬ c = '\\' ∧ ¬ c = '\n') :
    parseRenderedFile (renderAll (p0 :: prest) version (v0 :: vrest))
      = some (GoFile.mk (p0 :: prest)
          [.constDecl [.valueSpec [v0 :: vrest]
            [.basicLit ('"' :: (version ++ ['"']))]]]) := by
  have h0 : renderAll (p0 :: prest) version (v0 :: vrest)
      = '/' :: '/' :: (commentTail ++ '\n'
          :: ("package ".toList ++ ((p0 :: prest) ++ '\n'
          :: ('\n' :: 'c' :: 'o' :: 'n' :: 's' :: 't' :: ' ' :: '(' :: '\n' :: '\t'
          :: ((v0 :: vrest) ++ (' ' :: '=' :: ' ' :: '"'
          :: (version ++ '"' :: ('\n' :: ')' :: '\n' :: ([] : Str))))))))) := by
    simp [renderAll, headerText, commentLine, generateContent, commentTail,
      List.append_assoc]
  rw [h0]
  unfold parseRenderedFile
  rw [show stripComment ('/' :: '/' :: (commentTail ++ '\n'
      :: ("package ".toList ++ ((p0 :: prest) ++ '\n'
      :: ('\n' :: 'c' :: 'o' :: 'n' :: 's' :: 't' :: ' ' :: '(' :: '\n' :: '\t'
      :: ((v0 :: vrest) ++ (' ' :: '=' :: ' ' :: '"'
      :: (version ++ '"' :: ('\n' :: ')' :: '\n' :: ([] : Str))))))))))
      = dropLine (commentTail ++ '\n'
      :: ("package ".toList ++ ((p0 :: prest) ++ '\n'
      :: ('\n' :: 'c' :: 'o' :: 'n' :: 's' :: 't' :: ' ' :: '(' :: '\n' :: '\t'
      :: ((v0 :: vrest) ++ (' ' :: '=' :: ' ' :: '"'
      :: (version ++ '"' :: ('\n' :: ')' :: '\n' :: ([] : Str))))))))) from rfl]
  rw [dropLine_append commentTail _ (by decide)]
  rw [dropLit_append ("package ".toList) _]
  simp only [Option.some_bind]
  rw [takeIdent_append p0 prest '\n' _ hp0 hprest (by decide)]
  simp only [Option.some_bind]
  rw [show ('\n' :: '\n' :: 'c' :: 'o' :: 'n' :: 's' :: 't' :: ' ' :: '(' :: '\n' :: '\t'
      :: ((v0 :: vrest) ++ (' ' :: '=' :: ' ' :: '"'
      :: (version ++ '"' :: ('\n' :: ')' :: '\n' :: ([] : Str))))))
      = "\n\nconst (\n\t".toList ++ ((v0 :: vrest) ++ (' ' :: '=' :: ' ' :: '"'
      :: (version ++ '"' :: ('\n' :: ')' :: '\n' :: ([] : Str))))) from rfl]
  rw [dropLit_append ("\n\nconst (\n\t".toList) _]
  simp only [Option.some_bind]
  rw [takeIdent_append v0 vrest ' ' _ hv0 hvrest (by decide)]
  simp only [Option.some_bind]
  rw [show (' ' :: '=' :: ' ' :: '"'
      :: (version ++ '"' :: ('\n' :: ')' :: '\n' :: ([] : Str))))
      = " = \"".toList ++ (version ++ '"' :: ('\n' :: ')' :: '\n' :: ([] : Str)))
      from rfl]
  rw [dropLit_append (" = \"".toList) _]
  simp only [Option.some_bind]
  rw [scanStringLit_append version ('\n' :: ')' :: '\n' :: ([] : Str)) hver]
  simp only [Option.some_bind]
  rw [show ('\n' :: ')' :: '\n' :: ([] : Str)) = "\n)\n".toList ++ ([] : Str) from rfl]
  rw [dropLit_append ("\n)\n".toList) ([] : Str)]
  simp only [Option.some_bind]
  rfl

/-- When every listed file parses, the file loop succeeds and returns the
parses in listing order. -/
theorem parseGoFiles_ok (files : ParsedFs) (l : List Str)
    (h : ∀ n ∈ l, files n ≠ none) : ∃ fs, parseGoFiles files l = .ok fs := by
  induction l with
  | nil => exact ⟨[], rfl⟩
  | cons n rest ih =>
    obtain ⟨f, hf⟩ := Option.ne_none_iff_exists.mp (h n (by simp))
    obtain ⟨fs, hfs⟩ := ih (fun m hm => h m (by simp [hm]))
    exact ⟨f :: fs, by simp [parseGoFiles, ← hf, hfs]⟩

/-- A successful `run` writes exactly one file per processed path, at
`Dir(path) + "/version.go"`, in input order (stated over the accumulated
writes of the loop). -/
theorem runPaths_write_paths (w : GoWorld) (varName mode : Str) (lazyInit : Bool)
    (paths : List Str) :
    ∀ (acc writes : List (Str × Str)),
      runPaths w varName mode lazyInit paths acc = .ok writes →
      writes.map Prod.fst
        = (acc.reverse.map Prod.fst)
          ++ paths.map (fun p => goDir p ++ ('/' :: versionGoName)) := by
  induction paths with
  | nil =>
    intro acc writes h
    unfold runPaths at h
    injection h with h'
    subst h'
    simp
  | cons p rest ih =>
    intro acc writes h
    unfold runPaths at h
    split at h
    · simp at h
    · split at h
      · simp at h
      · split at h
        · simp at h
        · rw [ih _ _ h]
          simp [List.map_append]

/-! ### The claims -/

/-- C1: evaluation of `getNextVersion` at multi-digit version strings.  The
claim says every `"M.N.P"` with decimal numerals of any number of digits is
accepted and the selected component incremented, the others left exactly as
they were; the code instead rejects `"1.10.0"` (its pattern allows a single
minor digit only) and maps `"12.0.0"`/PATCH to `"2.0.1"` (the repeated
capture group keeps only the last major digit). -/
theorem c1_multidigit_version_eval :
    getNextVersion "1.10.0".toList "PATCH".toList
      = .error (fmtErrPre ++ "1.10.0".toList ++ fmtErrPost)
    ∧ getNextVersion "12.0.0".toList "PATCH".toList = .ok "2.0.1".toList :=
  ⟨rfl, rfl⟩

/-- C2: for every input string that does not match `^\d+\.\d+\.\d+$`, and
any mode, `getNextVersion` returns no version but the format error whose
message is the fixed text with the offending input embedded in it. -/
theorem c2_nonmatching_input_format_error (version mode : Str)
    (h : specVersionPattern version = false) :
    getNextVersion version mode = .error (fmtErrPre ++ version ++ fmtErrPost) := by
  unfold getNextVersion
  rw [captures_none_of_spec_false version h]

/-- C2 witness: the malformed input `"1.x.0"` fails the spec pattern and is
rejected with the format error containing it. -/
theorem c2_nonmatching_input_format_error_witness :
    specVersionPattern "1.x.0".toList = false
    ∧ getNextVersion "1.x.0".toList "PATCH".toList
        = .error (fmtErrPre ++ "1.x.0".toList ++ fmtErrPost) :=
  ⟨rfl, c2_nonmatching_input_format_error ("1.x.0".toList) ("PATCH".toList) rfl⟩

/-- C3: when the version file at the joined path is missing or unparsable,
requesting initialization yields `"1.0.0"` without error, and not
requesting it yields the parse error instead of a version. -/
theorem c3_missing_file_init_or_error (files : ParsedFs) (path varName : Str)
    (h : files (goJoin path versionGoName) = none) :
    getCurrentVersion files path true varName = .ok initialVersion
    ∧ getCurrentVersion files path false varName
        = .error (.parseErr (goJoin path versionGoName)) := by
  constructor <;> simp [getCurrentVersion, h]

/-- C3 witness: on an empty file system, path `"."`, initialization gives
`"1.0.0"` and no initialization gives the parse error. -/
theorem c3_missing_file_init_or_error_witness :
    (fun _ => (none : Option GoFile)) (goJoin ".".toList versionGoName) = none
    ∧ getCurrentVersion (fun _ => none) ".".toList true "VERSION".toList
        = .ok initialVersion
    ∧ getCurrentVersion (fun _ => none) ".".toList false "VERSION".toList
        = .error (.parseErr (goJoin ".".toList versionGoName)) :=
  ⟨rfl,
    (c3_missing_file_init_or_error (fun _ => none) (".".toList) ("VERSION".toList) rfl).1,
    (c3_missing_file_init_or_error (fun _ => none) (".".toList) ("VERSION".toList) rfl).2⟩

/-- C4 counterexample: for the version string consisting of one double
quote, the rendered text does not even parse, so re-parsing through the
Locator does not yield the rendered version back. -/
theorem c4_quote_version_breaks_round_trip :
    parseRenderedFile (renderAll "main".toList ['"'] "VERSION".toList) = none
    ∧ getCurrentVersion
        (fun p => if p = goJoin ".".toList versionGoName
          then parseRenderedFile (renderAll "main".toList ['"'] "VERSION".toList)
          else none)
        ".".toList false "VERSION".toList
        ≠ .ok ['"'] := by
  constructor
  · decide
  · decide

/-- C4 amended: rendering a declaration unit for identifier package and
constant names and a version free of quotes, backslashes and newlines,
then re-parsing the rendered text and extracting the constant through the
Locator, yields exactly the rendered version string. -/
theorem c4_render_locate_round_trip (path : Str) (p0 : Char) (prest : Str)
    (v0 : Char) (vrest : Str) (version : Str) (lazyInit : Bool)
    (hp0 : isIdentStart p0 = true) (hprest : ∀ c ∈ prest, isIdentCont c = true)
    (hv0 : isIdentStart v0 = true) (hvrest : ∀ c ∈ vrest, isIdentCont c = true)
    (hver : ∀ c ∈ version, ¬ c = '"' ∧ ¬ c = '\\' ∧ ¬ c = '\n') :
    getCurrentVersion
      (fun p => if p = goJoin path versionGoName
        then parseRenderedFile (renderAll (p0 :: prest) version (v0 :: vrest))
        else none)
      path lazyInit (v0 :: vrest)
      = .ok version := by
  rw [parseRenderedFile_render p0 prest v0 vrest version hp0 hprest hv0 hvrest hver]
  simp [getCurrentVersion, lookupDecls, lookupSpecs, firstBasicLit,
    trimQuotes_quoted version (fun c hc => (hver c hc).1)]

/-- C4 amended witness: rendering package `"main"`, constant `"VERSION"`,
version `"1.0.0"` and re-parsing through the Locator returns `"1.0.0"`. -/
theorem c4_render_locate_round_trip_witness :
    getCurrentVersion
      (fun p => if p = goJoin ".".toList versionGoName
        then parseRenderedFile (renderAll "main".toList "1.0.0".toList "VERSION".toList)
        else none)
      ".".toList false "VERSION".toList
      = .ok "1.0.0".toList :=
  c4_render_locate_round_trip (".".toList) 'm' ("ain".toList) 'V' ("ERSION".toList)
    ("1.0.0".toList) false (by decide) (by decide) (by decide) (by decide) (by decide)

/-- C5 counterexample: at package `"main"`, constant `"VERSION"` and
version `"1.0.0"`, the rendered contents do NOT have the claimed shape of
a (newline-free) comment line followed by a blank line followed by the
package header: no such decomposition exists, because the blank line in
the output comes after the package header, not before it. -/
theorem c5_no_blank_line_after_comment :
    ¬ ∃ (comment rest : Str), (∀ c ∈ comment, ¬ c = '\n')
      ∧ renderAll "main".toList "1.0.0".toList "VERSION".toList
          = comment ++ '\n' :: '\n' :: ("package main".toList ++ '\n' :: rest) := by
  rintro ⟨comment, rest, hc, heq⟩
  have h1 : splitLines (renderAll "main".toList "1.0.0".toList "VERSION".toList)
      = comment :: [] :: "package main".toList :: splitLines rest := by
    rw [heq]
    unfold splitLines
    rw [splitOnChar_append_cons '\n' comment _ hc, splitOnChar_cons_sep,
      splitOnChar_append_cons '\n' ("package main".toList) _ (by decide)]
  have h2 : splitLines (renderAll "main".toList "1.0.0".toList "VERSION".toList)
      = [commentLine,
         "package main".toList,
         [],
         "const (".toList,
         "\tVERSION = \"1.0.0\"".toList,
         [')'],
         []] := by decide
  rw [h2] at h1
  have : ("package main".toList : Str) = [] := (List.cons.injEq _ _ _ _).mp
    ((List.cons.injEq _ _ _ _).mp h1).2 |>.1
  simp at this

/-- C5 amended: the rendered output is exactly, line by line: the
generated/managed comment line, then the package header, then a blank
line, then the constant block `const (` / tab, constant name, equals,
quoted version / `)`, with a final newline (so a last empty part). -/
theorem c5_amended_line_structure (pkg version varName : Str)
    (hp : ∀ c ∈ pkg, ¬ c = '\n') (hv : ∀ c ∈ version, ¬ c = '\n')
    (hn : ∀ c ∈ varName, ¬ c = '\n') :
    splitLines (renderAll pkg version varName)
      = [commentLine,
         "package ".toList ++ pkg,
         [],
         "const (".toList,
         '\t' :: (varName ++ (" = \"".toList ++ (version ++ ['"']))),
         [')'],
         []] := by
  have hpk : ∀ c ∈ "package ".toList, ¬ c = '\n' := by decide
  have hlit : ∀ c ∈ " = \"".toList, ¬ c = '\n' := by decide
  have hq : ∀ c ∈ (['"'] : Str), ¬ c = '\n' := by decide
  have hppkg : ∀ c ∈ "package ".toList ++ pkg, ¬ c = '\n' := by
    intro c hcc
    rcases List.mem_append.mp hcc with h | h
    · exact hpk c h
    · exact hp c h
  have h4 : ∀ c ∈ '\t' :: (varName ++ (" = \"".toList ++ (version ++ ['"']))),
      ¬ c = '\n' := by
    intro c hcc
    rcases List.mem_cons.mp hcc with rfl | hcc
    · decide
    rcases List.mem_append.mp hcc with hcc | hcc
    · exact hn c hcc
    rcases List.mem_append.mp hcc with hcc | hcc
    · exact hlit c hcc
    rcases List.mem_append.mp hcc with hcc | hcc
    · exact hv c hcc
    · exact hq c hcc
  have h0 : renderAll pkg version varName
      = commentLine ++ '\n' :: (("package ".toList ++ pkg) ++ '\n'
          :: '\n' :: ("const (".toList ++ '\n'
          :: (('\t' :: (varName ++ (" = \"".toList ++ (version ++ ['"'])))) ++ '\n'
          :: ([')'] ++ '\n' :: ([] : Str))))) := by
    simp [renderAll, headerText, generateContent, List.append_assoc]
  rw [h0]
  unfold splitLines
  rw [splitOnChar_append_cons '\n' commentLine _ (by decide),
    splitOnChar_append_cons '\n' ("package ".toList ++ pkg) _ hppkg,
    splitOnChar_cons_sep,
    splitOnChar_append_cons '\n' ("const (".toList) _ (by decide),
    splitOnChar_append_cons '\n'
      ('\t' :: (varName ++ (" = \"".toList ++ (version ++ ['"'])))) _ h4,
    splitOnChar_append_cons '\n' ([')']) _ (by decide)]
  rfl

/-- C5 amended witness: the concrete rendering for package `"main"`,
constant `"VERSION"`, version `"1.0.0"` has exactly those lines. -/
theorem c5_amended_line_structure_witness :
    splitLines (renderAll "main".toList "1.0.0".toList "VERSION".toList)
      = [commentLine,
         "package ".toList ++ "main".toList,
         [],
         "const (".toList,
         '\t' :: ("VERSION".toList ++ (" = \"".toList ++ ("1.0.0".toList ++ ['"']))),
         [')'],
         []] :=
  c5_amended_line_structure ("main".toList) ("1.0.0".toList) ("VERSION".toList)
    (by decide) (by decide) (by decide)

/-- C6: when the version file parses but no `const` declaration binds the
requested name, `getCurrentVersion` returns (for both settings of the
initialization flag) the error message naming the constant and the file
path; this case is never defaulted to `"1.0.0"`. -/
theorem c6_missing_constant_error (files : ParsedFs) (path varName : Str)
    (f : GoFile) (lazyInit : Bool)
    (hf : files (goJoin path versionGoName) = some f)
    (hno : mentionsConst varName f.decls = false) :
    getCurrentVersion files path lazyInit varName
      = .error (.msg (cnfPre ++ varName ++ cnfMid
          ++ goJoin path versionGoName ++ cnfPost)) := by
  simp [getCurrentVersion, hf, lookupDecls_eq_none varName f.decls hno]

/-- C6 witness: a file system whose `app/version.go` parses to a file with
no declarations yields the could-not-find error under both initialization
settings. -/
theorem c6_missing_constant_error_witness :
    (mentionsConst "VERSION".toList (GoFile.mk "main".toList []).decls = false)
    ∧ getCurrentVersion
        (fun p => if p = goJoin "app".toList versionGoName
          then some (GoFile.mk "main".toList []) else none)
        "app".toList true "VERSION".toList
        = .error (.msg (cnfPre ++ "VERSION".toList ++ cnfMid
            ++ goJoin "app".toList versionGoName ++ cnfPost))
    ∧ getCurrentVersion
        (fun p => if p = goJoin "app".toList versionGoName
          then some (GoFile.mk "main".toList []) else none)
        "app".toList false "VERSION".toList
        = .error (.msg (cnfPre ++ "VERSION".toList ++ cnfMid
            ++ goJoin "app".toList versionGoName ++ cnfPost)) :=
  ⟨rfl,
    c6_missing_constant_error _ ("app".toList) ("VERSION".toList)
      (GoFile.mk "main".toList []) true (by simp) rfl,
    c6_missing_constant_error _ ("app".toList) ("VERSION".toList)
      (GoFile.mk "main".toList []) false (by simp) rfl⟩

/-- C7: `parsePackage` fails fatally when the directory cannot be listed,
when it holds no `.go` files, or when the first `.go` file fails to parse;
and when every `.go` file parses it returns the package name of the first
one. -/
theorem c7_parsePackage_spec (w : GoWorld) (directory : Str) :
    (w.dirs directory = none →
      parsePackage w directory = .fatal (readDirErrPre ++ directory ++ readDirErrPost))
    ∧ (∀ names, w.dirs directory = some names → names.filter hasGoSuffix = [] →
        parsePackage w directory = .fatal (directory ++ noGoFilesPost))
    ∧ (∀ names g rest, w.dirs directory = some names →
        names.filter hasGoSuffix = g :: rest → w.files g = none →
        parsePackage w directory = .fatal (parseFatalPre ++ g))
    ∧ (∀ names g rest f, w.dirs directory = some names →
        names.filter hasGoSuffix = g :: rest → w.files g = some f →
        (∀ n ∈ rest, w.files n ≠ none) →
        parsePackage w directory = .ok f.packageName) := by
  refine ⟨?_, ?_, ?_, ?_⟩
  · intro h
    simp [parsePackage, h]
  · intro names h hfil
    simp [parsePackage, h, hfil, parseGoFiles]
  · intro names g rest h hfil hg
    simp [parsePackage, h, hfil, parseGoFiles, hg]
  · intro names g rest f h hfil hg hrest
    obtain ⟨fs, hfs⟩ := parseGoFiles_ok w.files rest hrest
    simp [parsePackage, h, hfil, parseGoFiles, hg, hfs]

/-- C7 witness: the four scenarios at concrete worlds -- unreadable
directory, no Go files, unparsable first file, and a directory whose one
file parses to package `main`. -/
theorem c7_parsePackage_spec_witness :
    parsePackage (GoWorld.mk (fun _ => none) (fun _ => none)) "d".toList
      = .fatal (readDirErrPre ++ "d".toList ++ readDirErrPost)
    ∧ parsePackage (GoWorld.mk (fun _ => some []) (fun _ => none)) "d".toList
      = .fatal ("d".toList ++ noGoFilesPost)
    ∧ parsePackage (GoWorld.mk (fun _ => some ["a.go".toList]) (fun _ => none)) "d".toList
      = .fatal (parseFatalPre ++ "a.go".toList)
    ∧ parsePackage
        (GoWorld.mk (fun _ => some ["a.go".toList])
          (fun _ => some (GoFile.mk "main".toList []))) "d".toList
      = .ok "main".toList :=
  ⟨(c7_parsePackage_spec _ _).1 rfl,
    (c7_parsePackage_spec _ _).2.1 [] rfl rfl,
    (c7_parsePackage_spec _ _).2.2.1 ["a.go".toList] ("a.go".toList) [] rfl (by decide) rfl,
    (c7_parsePackage_spec _ _).2.2.2 ["a.go".toList] ("a.go".toList) []
      (GoFile.mk "main".toList []) rfl (by decide) rfl (by simp)⟩

/-- C8: `getNextVersion` maps `"1.0.0"`/PATCH to `"1.0.1"`, `"1.2.9"`/MINOR
to `"1.3.9"` and `"2.5.7"`/MAJOR to `"3.5.7"`, each without error. -/
theorem c8_scenario_increments :
    getNextVersion "1.0.0".toList "PATCH".toList = .ok "1.0.1".toList
    ∧ getNextVersion "1.2.9".toList "MINOR".toList = .ok "1.3.9".toList
    ∧ getNextVersion "2.5.7".toList "MAJOR".toList = .ok "3.5.7".toList :=
  ⟨rfl, rfl, rfl⟩

/-- C9: a successful `run` in write mode writes, for each input path `p`
in order, exactly one file at `Dir(p) + "/version.go"`; and the locator
reads only `Join(p, "version.go")`: its result is unchanged under any
change of the file system that preserves that one path. -/
theorem c9_write_path_and_read_path (w w' : GoWorld) (varName mode : Str)
    (lazyInit : Bool) (inputPaths : List Str) (writes : List (Str × Str)) :
    (run w varName inputPaths mode lazyInit = .ok writes →
      writes.map Prod.fst = inputPaths.map (fun p => goDir p ++ ('/' :: versionGoName)))
    ∧ (∀ path, w.files (goJoin path versionGoName) = w'.files (goJoin path versionGoName) →
        getCurrentVersion w.files path lazyInit varName
          = getCurrentVersion w'.files path lazyInit varName) := by
  constructor
  · intro h
    have := runPaths_write_paths w varName mode lazyInit inputPaths [] writes h
    simpa using this
  · intro path h
    simp only [getCurrentVersion]
    rw [h]

/-- C9 witness: on the concrete world `wEx`, running path `"app"` writes
exactly to `"./version.go"` (the parent directory of `"app"` is `"."`),
and the locator's read-path invariance instantiates trivially. -/
theorem c9_write_path_and_read_path_witness :
    [(goDir "app".toList ++ ('/' :: versionGoName),
        renderAll "main".toList "1.0.1".toList "VERSION".toList)].map Prod.fst
      = ["app".toList].map (fun p => goDir p ++ ('/' :: versionGoName))
    ∧ getCurrentVersion wEx.files "app".toList false "VERSION".toList
      = getCurrentVersion wEx.files "app".toList false "VERSION".toList :=
  ⟨(c9_write_path_and_read_path wEx wEx ("VERSION".toList) ("PATCH".toList) false
      ["app".toList] _).1 (by decide),
    (c9_write_path_and_read_path wEx wEx ("VERSION".toList) ("PATCH".toList) false
      ["app".toList] []).2 ("app".toList) rfl⟩

/-- C10 counterexample: `"12.3.4"` is accepted by the implementation's
pattern, and with the unrecognized mode `"FOO"` the result is `"2.3.4"`,
not the unchanged input `"12.3.4"`: the major component is rebuilt from the
last captured digit, so it does not stay unchanged. -/
theorem c10_unknown_mode_changes_multidigit_version :
    versionRegExMatches "12.3.4".toList = true
    ∧ getNextVersion "12.3.4".toList "FOO".toList = .ok "2.3.4".toList
    ∧ "2.3.4".toList ≠ "12.3.4".toList :=
  ⟨rfl, rfl, by decide⟩

/-- C10 amended: for versions accepted by the pattern whose major and patch
components are single digits (the pattern already forces a single-digit
minor), every mode other than MAJOR, MINOR and PATCH is silently ignored:
the result is `.ok` with the version unchanged. -/
theorem c10_unknown_mode_ignored_single_digits (x y z : Char) (mode : Str)
    (hx : x.isDigit = true) (hy : y.isDigit = true) (hz : z.isDigit = true)
    (hMaj : ¬ mode = "MAJOR".toList) (hMin : ¬ mode = "MINOR".toList)
    (hPat : ¬ mode = "PATCH".toList) :
    getNextVersion [x, '.', y, '.', z] mode = .ok [x, '.', y, '.', z] := by
  have hx' := digit_ne_dot x hx
  have hy' := digit_ne_dot y hy
  have hz' := digit_ne_dot z hz
  have hsplit : splitOnDot [x, '.', y, '.', z] = [[x], [y], [z]] := by
    simp [splitOnDot, splitOnChar, hx', hy', hz']
  have hcap : versionRegExCaptures [x, '.', y, '.', z] = some ([x], [y], [z]) := by
    unfold versionRegExCaptures
    rw [hsplit]
    simp [hx, hy, hz]
  unfold getNextVersion
  rw [hcap]
  simp only [atoi_single_digit x hx, atoi_single_digit y hy, atoi_single_digit z hz,
    if_neg hPat, if_neg hMin, if_neg hMaj]
  rw [natToChars_digit x hx, natToChars_digit y hy, natToChars_digit z hz]
  rfl

/-- C10 amended witness: the single-digit version `"1.2.3"` with mode
`"FOO"` comes back unchanged and without error. -/
theorem c10_unknown_mode_ignored_single_digits_witness :
    ('1').isDigit = true
    ∧ getNextVersion "1.2.3".toList "FOO".toList = .ok "1.2.3".toList :=
  ⟨rfl, c10_unknown_mode_ignored_single_digits '1' '2' '3' ("FOO".toList)
    rfl rfl rfl (by decide) (by decide) (by decide)⟩

end Giddyup
